import Mathlib

/-!
Shallow embedding of the lab3 play-generation program (Rust sources under
`src/lab3client/src`).  Pure functions of the Rust code become Lean functions;
the filesystem is a map from file names to the optional list of raw lines of
the file; stdout output is modelled as the list of printed lines; fallible
operations return `Except`/`Option`.  Mutex/Arc wrappers are modelled away
(all theorems assume every lock acquisition succeeds, i.e. no lock is
poisoned); stderr diagnostics are modelled only where a claim depends on them.
-/

namespace Lab3

/-! ### String utilities

Models of the Rust standard-library string operations used by the program,
implemented over `List Char` so that they evaluate by `decide`/`rfl`.
For valid UTF-8, Rust's byte-wise `String` ordering coincides with
code-point lexicographic ordering, which is what `charListLe` implements. -/

/-- Lexicographic comparison of char lists by code point; model of the Rust
`str` ordering used by `Ord` on `(usize, String)` tuples. -/
def charListLe : List Char → List Char → Bool
  | [], _ => true
  | _ :: _, [] => false
  | a :: as, b :: bs => if a < b then true else if b < a then false else charListLe as bs

/-- Model of Rust `str::trim`: drop leading and trailing whitespace. -/
def trimCh (l : List Char) : List Char :=
  ((l.dropWhile Char.isWhitespace).reverse.dropWhile Char.isWhitespace).reverse

/-- Model of Rust `str::trim` on `String`. -/
def trim (s : String) : String := ⟨trimCh s.data⟩

/-- Accumulator-based worker for `splitWhitespace` (the accumulator holds the
current word reversed). -/
def wordsAux : List Char → List Char → List String
  | [], acc => if acc.isEmpty then [] else [⟨acc.reverse⟩]
  | c :: cs, acc =>
    if c.isWhitespace then
      if acc.isEmpty then wordsAux cs []
      else ⟨acc.reverse⟩ :: wordsAux cs []
    else wordsAux cs (c :: acc)

/-- Model of Rust `str::split_whitespace().collect()`: the maximal
whitespace-free words of the string, in order. -/
def splitWhitespace (s : String) : List String := wordsAux s.data []

/-- Worker for `splitOnceWs`: split the char list at the first whitespace
character, which is consumed. -/
def splitOnceWsAux : List Char → Option (List Char × List Char)
  | [] => none
  | c :: cs =>
    if c.isWhitespace then some ([], cs)
    else (splitOnceWsAux cs).map (fun p => (c :: p.1, p.2))

/-- Model of Rust `str::split_once(char::is_whitespace)`: `none` when the
string contains no whitespace character. -/
def splitOnceWs (s : String) : Option (String × String) :=
  (splitOnceWsAux s.data).map (fun p => (⟨p.1⟩, ⟨p.2⟩))

/-- Model of Rust `str::parse::<usize>()` restricted to plain decimal digit
strings (the sign/overflow corner cases of `usize` parsing play no role in
any claim). -/
def parseUsize (s : String) : Option Nat :=
  if s.data ≠ [] ∧ s.data.all Char.isDigit then
    some (s.data.foldl (fun n c => n * 10 + (c.toNat - '0'.toNat)) 0)
  else none

/-- Model of Rust `[&str]::join(" ")` / `Vec::join`. -/
def joinSep (sep : String) : List String → String
  | [] => ""
  | [x] => x
  | x :: y :: xs => x ++ sep ++ joinSep sep (y :: xs)

/-! ### declarations.rs -/

/-- Exit code for a command-line usage error (`declarations::ERR_CMD_LINE`). -/
def ERR_CMD_LINE : Nat := 1

/-- Exit code for a script-generation error (`declarations::ERR_SCRIPT_GEN`). -/
def ERR_SCRIPT_GEN : Nat := 2

/-- The filesystem: maps a file name to the raw lines of the file, or `none`
when the file cannot be opened or read. -/
abbrev FS : Type := String → Option (List String)

/-- Model of `declarations::grab_trimmed_file_lines`: fails with
`ERR_SCRIPT_GEN` when the file is unreadable, otherwise yields every line of
the file trimmed (blank lines are kept as empty strings). -/
def grab_trimmed_file_lines (fs : FS) (file_name : String) : Except Nat (List String) :=
  match fs file_name with
  | none => .error ERR_SCRIPT_GEN
  | some ls => .ok (ls.map trim)

/-! ### player.rs -/

/-- Model of `player.rs`: `PlayLines = Vec<(usize, String)>`. -/
abbrev PlayLines : Type := List (Nat × String)

/-- Model of the `Player` struct: name, parsed dialogue lines, and the cursor
`line_index` into them. -/
structure Player where
  name : String
  lines : List (Nat × String)
  line_index : Nat
deriving DecidableEq, Repr

/-- Model of `Player::new`. -/
def Player.new (name : String) : Player := ⟨name, [], 0⟩

/-- Model of `Player::add_script_line`: a non-empty line is split at its first
whitespace character; when the (trimmed) leading token parses as a `usize`,
the pair (number, trimmed remainder) is appended to the player's lines, and
otherwise the line is dropped (with a stderr warning in whinge mode, not
modelled here). -/
def Player.add_script_line (p : Player) (unparsed_line : String) : Player :=
  if unparsed_line.length > 0 then
    match splitOnceWs unparsed_line with
    | some (first_token, rest) =>
      match parseUsize (trim first_token) with
      | some num => { p with lines := p.lines ++ [(num, trim rest)] }
      | none => p
    | none => p
  else p

/-- The total order on parsed lines used by `self.lines.sort()` in
`Player::prepare`: Rust's derived `Ord` on `(usize, String)` tuples, i.e.
lexicographic by number and then by text. -/
def lineLe (a b : Nat × String) : Bool :=
  if a.1 < b.1 then true else if b.1 < a.1 then false else charListLe a.2.data b.2.data

/-- `lineLe` as a decidable relation (for `List.insertionSort`). -/
def lineRel (a b : Nat × String) : Prop := lineLe a b = true

instance : DecidableRel lineRel := fun a b => instDecidableEqBool (lineLe a b) true

/-- Model of `Player::prepare`: read the character's dialogue file (a read
failure raises `panic!`, modelled as `none`, which crashes the enclosing
preparation task), feed every trimmed line through `add_script_line`, and
finally stably sort the parsed lines by Rust's `(usize, String)` ordering
(`Vec::sort` is a stable sort; it is modelled by insertion sort, which is
stable and agrees with every stable sort for a total preorder). -/
def Player.prepare (fs : FS) (p : Player) (file_name : String) : Option Player :=
  match grab_trimmed_file_lines fs file_name with
  | .error _ => none
  | .ok ls =>
    let p' := ls.foldl Player.add_script_line p
    some { p' with lines := List.insertionSort lineRel p'.lines }

/-- Model of `Player::speak`: when a pending line exists, print a blank line
and the name (preceded by one space, from the `"\n {}"` format) whenever the
tracked recent speaker differs from this player, update the tracked speaker,
print the dialogue text, and advance the cursor.  Returns the updated player,
the updated recent-speaker tracker, and the stdout lines printed. -/
def Player.speak (p : Player) (recent_player : String) : Player × String × List String :=
  match p.lines.get? p.line_index with
  | some (_, text) =>
    if recent_player ≠ p.name then
      ({ p with line_index := p.line_index + 1 }, p.name, ["", " " ++ p.name, text])
    else
      ({ p with line_index := p.line_index + 1 }, recent_player, [text])
  | none => (p, recent_player, [])

/-- Model of `Player::next_line`: the number of the line at the cursor, or
`none` when the cursor has run off the end. -/
def Player.next_line (p : Player) : Option Nat :=
  (p.lines.get? p.line_index).map (fun t => t.1)

/-- Model of `impl PartialEq for Player`. -/
def Player.eqPlayer (self other : Player) : Bool :=
  match self.lines, other.lines with
  | [], [] => true
  | [], _ :: _ => false
  | _ :: _, [] => false
  | (self_first, _) :: _, (other_first, _) :: _ => self_first == other_first

/-- Model of `impl Ord for Player` (`cmp`): silent players (no lines) compare
equal to each other and less than non-silent players; two non-silent players
compare by the numbers of their first lines. -/
def Player.cmp (self other : Player) : Ordering :=
  match self.lines, other.lines with
  | [], [] => .eq
  | [], _ :: _ => .lt
  | _ :: _, [] => .gt
  | (self_first, _) :: _, (other_first, _) :: _ => compare self_first other_first

/-! ### scene_fragment.rs -/

/-- Model of `scene_fragment.rs`: `PlayConfig = Vec<(String, String)>`
(character name, associated dialogue file). -/
abbrev PlayConfig : Type := List (String × String)

/-- Model of the `SceneFragment` struct.  The `Arc<Mutex<Player>>` handles
are modelled as plain `Player` values (all theorems assume lock acquisition
succeeds). -/
structure SceneFragment where
  scene_title : String
  characters : List Player
deriving DecidableEq, Repr

/-- Model of `SceneFragment::new`. -/
def SceneFragment.new (title : String) : SceneFragment := ⟨title, []⟩

/-- Model of `SceneFragment::add_config`: the line is whitespace-tokenized;
whenever there are at least two tokens the pair (first token, second token)
is appended to the config (the source pushes whenever
`delimited_tokens.len() >= CONFIG_LINE_TOKENS`); the warning emitted when the
count is not exactly two is modelled separately by `add_config_warning`. -/
def SceneFragment.add_config (line : String) (play_config : PlayConfig) : PlayConfig :=
  match splitWhitespace line with
  | name :: file :: _ => play_config ++ [(name, file)]
  | _ => play_config

/-- Model of the stderr warning of `SceneFragment::add_config`: emitted iff
whinge mode is on and the token count of the line is not exactly two. -/
def SceneFragment.add_config_warning (whinge : Bool) (line : String) : List String :=
  if whinge ∧ (splitWhitespace line).length ≠ 2 then
    ["Warning: there were not exactly two distinct tokens in the line " ++ line]
  else []

/-- Model of `SceneFragment::read_config`: read the scene config file
(propagating unreadable-file errors), fail with `ERR_SCRIPT_GEN` when it has
fewer than `MIN_CONFIG_LINES = 2` lines, and otherwise fold every line
through `add_config`. -/
def SceneFragment.read_config (fs : FS) (config_file_name : String)
    (play_config : PlayConfig) : Except Nat PlayConfig :=
  match grab_trimmed_file_lines fs config_file_name with
  | .error e => .error e
  | .ok lines =>
    if lines.length < 2 then .error ERR_SCRIPT_GEN
    else .ok (lines.foldl (fun cfg line => SceneFragment.add_config line cfg) play_config)

/-- Model of `SceneFragment::process_config`: for each (name, file) pair
build a `Player` and prepare it from its dialogue file, appending it to the
fragment's characters.  A `Player::prepare` panic (unreadable dialogue file)
crashes the whole task, modelled as `none`. -/
def SceneFragment.process_config (fs : FS) (frag : SceneFragment) :
    PlayConfig → Option SceneFragment
  | [] => some frag
  | (name, file) :: rest =>
    match Player.prepare fs (Player.new name) file with
    | none => none
    | some character =>
      SceneFragment.process_config fs
        { frag with characters := frag.characters ++ [character] } rest

/-- The ordering used by `self.characters.sort_by(SceneFragment::compare_players)`:
a stable comparator sort keeps `a` before `b` exactly when
`compare_players(a, b) != Greater`, and `compare_players` defers to
`Player::cmp` (no lock is poisoned in the model). -/
def playerRel (a b : Player) : Prop := Player.cmp a b ≠ Ordering.gt

instance : DecidableRel playerRel := fun a b =>
  inferInstanceAs (Decidable (¬ Player.cmp a b = Ordering.gt))

/-- Outcome of `SceneFragment::prepare` as run inside a preparation task:
the task can crash (`panic`), return `Err(code)` leaving the fragment as it
was when the error was raised, or succeed with the prepared fragment. -/
inductive PrepResult where
  | panic : PrepResult
  | err : Nat → SceneFragment → PrepResult
  | ok : SceneFragment → PrepResult
deriving DecidableEq, Repr

/-- Model of `SceneFragment::prepare`: read the scene config (errors
propagate via `?`, leaving the fragment untouched), build every character
(a dialogue-file read failure panics, crashing the task), and finally sort
the cast with `compare_players` (a stable comparator sort, modelled by
insertion sort). -/
def SceneFragment.prepare (fs : FS) (frag : SceneFragment)
    (config_file_name : String) : PrepResult :=
  match SceneFragment.read_config fs config_file_name [] with
  | .error e => .err e frag
  | .ok play_config =>
    match SceneFragment.process_config fs frag play_config with
    | none => .panic
    | some frag' =>
      .ok { frag' with characters := List.insertionSort playerRel frag'.characters }

/-- The cast's character names, in cast order. -/
def SceneFragment.names (f : SceneFragment) : List String :=
  f.characters.map Player.name

/-- Model of the name-diff loop of `SceneFragment::enter`: the names of
`self`'s cast, in cast order, that do not occur among `other`'s names. -/
def SceneFragment.entering (self other : SceneFragment) : List String :=
  self.names.filter (fun n => ! other.names.contains n)

/-- Model of `SceneFragment::enter` (stdout lines): the title flanked by
blank lines when its trimmed form is non-empty, then one `[Enter X.]` line
per name of `self` absent from `other`, in cast order. -/
def SceneFragment.enter (self other : SceneFragment) : List String :=
  (if trim self.scene_title ≠ "" then ["", self.scene_title, ""] else [])
    ++ (SceneFragment.entering self other).map (fun n => "[Enter " ++ n ++ ".]")

/-- Model of `SceneFragment::enter_all` (stdout lines): the title flanked by
blank lines when its trimmed form is non-empty, then one `[Enter X.]` line
per cast member, in cast order. -/
def SceneFragment.enter_all (self : SceneFragment) : List String :=
  (if trim self.scene_title ≠ "" then ["", self.scene_title, ""] else [])
    ++ self.names.map (fun n => "[Enter " ++ n ++ ".]")

/-- Model of the name-diff loop of `SceneFragment::exit`: the names of
`self`'s cast, in reverse cast order, that do not occur among `other`'s
names. -/
def SceneFragment.exiting (self other : SceneFragment) : List String :=
  self.names.reverse.filter (fun n => ! other.names.contains n)

/-- Model of `SceneFragment::exit` (stdout lines): a blank line, one
`[Exit X.]` line per name of `self` absent from `other` in reverse cast
order, and a trailing blank line. -/
def SceneFragment.exit (self other : SceneFragment) : List String :=
  [""] ++ (SceneFragment.exiting self other).map (fun n => "[Exit " ++ n ++ ".]") ++ [""]

/-- Model of `SceneFragment::exit_all` (stdout lines): a blank line, one
`[Exit X.]` line per cast member in reverse cast order, and a trailing blank
line. -/
def SceneFragment.exit_all (self : SceneFragment) : List String :=
  [""] ++ self.names.reverse.map (fun n => "[Exit " ++ n ++ ".]") ++ [""]

/-! #### The dialogue merge loop of `SceneFragment::recite` -/

/-- Number of dialogue lines the player has not yet spoken. -/
def Player.pending (p : Player) : Nat := p.lines.length - p.line_index

/-- Total number of unspoken lines across a cast: the termination measure of
the `recite` loop. -/
def totalPending (cs : List Player) : Nat := (cs.map Player.pending).sum

/-- Model of the minimum computation at the top of the `recite` loop: the
least pending line number across the cast, or `none` when every character is
exhausted (which breaks the loop). -/
def minPending (cs : List Player) : Option Nat :=
  (cs.filterMap Player.next_line).min?

/-- Model of the speaking pass of the `recite` loop: walk the cast in order
and let every character whose pending line number equals `m` speak, threading
the recent-speaker tracker.  Returns the updated cast, the tracker, the
stdout lines, and the number of speakers (`num_speakers`, used only for a
stderr warning, which is not modelled). -/
def SceneFragment.speakRound : List Player → Nat → String → List Player × String × List String × Nat
  | [], _, recent => ([], recent, [], 0)
  | c :: rest, m, recent =>
    if c.next_line = some m then
      let s := c.speak recent
      let r := SceneFragment.speakRound rest m s.2.1
      (s.1 :: r.1, r.2.1, s.2.2 ++ r.2.2.1, r.2.2.2 + 1)
    else
      let r := SceneFragment.speakRound rest m recent
      (c :: r.1, r.2.1, r.2.2.1, r.2.2.2)

/-- Fuel-indexed model of the `loop` in `SceneFragment::recite`.  One fuel
unit is spent per iteration; `totalPending` fuel always suffices (theorem
`c10_recite_loop_terminates`), so `reciteLoop` below runs the loop to
completion.  `next_line_number` is raised to the minimum pending number (the
gap-warning `while`, stderr not modelled) and then incremented. -/
def SceneFragment.reciteLoopF : Nat → List Player → Nat → String → List Player × List String
  | 0, cs, _, _ => (cs, [])
  | fuel + 1, cs, next_line_number, cur_speaker =>
    match minPending cs with
    | none => (cs, [])
    | some m =>
      let r := SceneFragment.speakRound cs m cur_speaker
      let rest := SceneFragment.reciteLoopF fuel r.1 (max next_line_number m + 1) r.2.1
      (rest.1, r.2.2.1 ++ rest.2)

/-- The `recite` loop run to completion (fuel `totalPending cs` suffices). -/
def SceneFragment.reciteLoop (cs : List Player) (next_line_number : Nat)
    (cur_speaker : String) : List Player × List String :=
  SceneFragment.reciteLoopF (totalPending cs) cs next_line_number cur_speaker

/-- Model of `SceneFragment::recite`: run the merge loop starting with
`next_line_number = FIRST_LINE = 0` and a freshly created empty
`cur_speaker` tracker (`String::new()`), returning the fragment with the
advanced cursors together with the stdout lines. -/
def SceneFragment.recite (f : SceneFragment) : SceneFragment × List String :=
  let r := SceneFragment.reciteLoop f.characters 0 ""
  ({ f with characters := r.1 }, r.2)

/-! ### play.rs -/

/-- Model of `play.rs`: `ScriptConfig = Vec<(bool, String)>`; `true` marks a
new scene title, `false` a scene-config-file reference. -/
abbrev ScriptConfig : Type := List (Bool × String)

/-- Model of `Play::add_config`: an empty tokenization is dropped; a lone
`[scene]` marker is dropped (warning in whinge mode, not modelled); a line
starting with `[scene]` followed by more tokens pushes a title entry with
the remaining tokens joined by single spaces; any other line pushes a
config-file entry holding its first token (extra tokens warn in whinge
mode, not modelled). -/
def Play.add_config (line : String) (script_config : ScriptConfig) : ScriptConfig :=
  match splitWhitespace (trim line) with
  | [] => script_config
  | [t] => if t = "[scene]" then script_config else script_config ++ [(false, t)]
  | t :: rest =>
    if t = "[scene]" then script_config ++ [(true, joinSep " " rest)]
    else script_config ++ [(false, t)]

/-- Model of the spawned preparation task of `Play::process_config`: the
closure runs `frag.prepare(&text)` and returns `frag`, discarding the
`Result` — so an `Err` outcome still yields the (partial) fragment, and only
a panic makes the join fail (`none`). -/
def Play.runTask (fs : FS) (title text : String) : Option SceneFragment :=
  match SceneFragment.prepare fs (SceneFragment.new title) text with
  | .panic => none
  | .err _ frag => some frag
  | .ok frag => some frag

/-- Model of the dispatch loop of `Play::process_config`: walk the script
entries in order, buffering the most recent unconsumed title; each
config-file entry captures the buffered title (which is then reset to the
empty string) and dispatches one task.  Returns the (title, config-path)
arguments of the dispatched tasks, in dispatch order. -/
def Play.dispatchList : ScriptConfig → String → List (String × String)
  | [], _ => []
  | (true, text) :: rest, _ => Play.dispatchList rest text
  | (false, text) :: rest, title => (title, text) :: Play.dispatchList rest ""

/-- Model of the join loop of `Play::process_config`: join the task handles
in dispatch order, pushing each fragment in that order; the first panicked
task makes the whole join fail. -/
def Play.joinAll (fs : FS) : List (String × String) → Option (List SceneFragment)
  | [] => some []
  | (title, text) :: rest =>
    match Play.runTask fs title text with
    | none => none
    | some frag =>
      match Play.joinAll fs rest with
      | none => none
      | some frags => some (frag :: frags)

/-- Model of `Play::process_config`: dispatch one task per config-file entry
(in encounter order) and join them in the same order; a panicked task yields
`Err(ERR_SCRIPT_GEN)`. -/
def Play.process_config (fs : FS) (script_config : ScriptConfig) :
    Except Nat (List SceneFragment) :=
  match Play.joinAll fs (Play.dispatchList script_config "") with
  | none => .error ERR_SCRIPT_GEN
  | some frags => .ok frags

/-- Model of `Play::read_config`: read the script file (propagating
unreadable-file errors), fail with `ERR_SCRIPT_GEN` when it has no lines,
and otherwise fold every line through `Play::add_config`. -/
def Play.read_config (fs : FS) (script_file_name : String) : Except Nat ScriptConfig :=
  match grab_trimmed_file_lines fs script_file_name with
  | .error e => .error e
  | .ok lines =>
    if lines.length = 0 then .error ERR_SCRIPT_GEN
    else .ok (lines.foldl (fun cfg line => Play.add_config line cfg) [])

/-- Model of `Play::prepare`: read the script config, process it, and then
check the post-condition — the fragment list must be non-empty and the first
fragment's title non-empty, else `ERR_SCRIPT_GEN`. -/
def Play.prepare (fs : FS) (script_file_name : String) : Except Nat (List SceneFragment) :=
  match Play.read_config fs script_file_name with
  | .error e => .error e
  | .ok script_config =>
    match Play.process_config fs script_config with
    | .error e => .error e
    | .ok frags =>
      match frags with
      | [] => .error ERR_SCRIPT_GEN
      | f :: _ => if f.scene_title ≠ "" then .ok frags else .error ERR_SCRIPT_GEN

/-- Model of `Play::recite` (stdout lines): walk the fragments in order; the
first fragment enters with `enter_all` and later ones diff against the
previous (already recited) fragment; the last fragment exits with `exit_all`
and earlier ones diff against the next fragment. -/
def Play.reciteGo : Option SceneFragment → List SceneFragment → List String
  | _, [] => []
  | prev, f :: rest =>
    let enterOut := match prev with
      | none => SceneFragment.enter_all f
      | some p => SceneFragment.enter f p
    let r := SceneFragment.recite f
    let exitOut := match rest with
      | [] => SceneFragment.exit_all r.1
      | n :: _ => SceneFragment.exit r.1 n
    enterOut ++ r.2 ++ exitOut ++ Play.reciteGo (some r.1) rest

/-- Model of `Play::recite` from the initial state (no previous fragment). -/
def Play.recite (frags : List SceneFragment) : List String :=
  Play.reciteGo none frags

/-! ### Concrete inputs used by counterexamples and witnesses -/

/-- Filesystem for the C1 failing input: the script names a titled scene
whose config file has only one line. -/
def fsC1 : FS := fun name =>
  if name = "script.txt" then some ["[scene] Act1", "conf.txt"]
  else if name = "conf.txt" then some ["Alice alice.txt"] else none

/-- Filesystem for the C2 counterexample: a dialogue file whose two lines
share line number 1 but carry texts in anti-alphabetical file order. -/
def fsC2 : FS := fun name =>
  if name = "ham.txt" then some ["1 b", "1 a"] else none

/-- Fragments for the C4 counterexample: the same character "A" speaks the
last line of the first fragment and the first line of the second. -/
def fragsC4 : List SceneFragment :=
  [⟨"Act1", [⟨"A", [(0, "hello")], 0⟩]⟩, ⟨"", [⟨"A", [(0, "again")], 0⟩]⟩]

/-- Script entries for the C6 witness: a title followed by two config-file
references. -/
def entriesC6 : ScriptConfig := [(true, "Act1"), (false, "c1.txt"), (false, "c2.txt")]

/-- Filesystem for the C6 witness: two well-formed scene configs sharing two
dialogue files. -/
def fsC6 : FS := fun name =>
  if name = "c1.txt" then some ["Alice a.txt", "Bob b.txt"]
  else if name = "c2.txt" then some ["Carol a.txt", "Dan b.txt"]
  else if name = "a.txt" then some ["1 Hello"]
  else if name = "b.txt" then some ["2 Hi"]
  else none

/-- The fragments the C6 witness expects: one per config reference, in
script order, the first carrying the buffered title. -/
def fragsC6 : List SceneFragment :=
  [⟨"Act1", [⟨"Alice", [(1, "Hello")], 0⟩, ⟨"Bob", [(2, "Hi")], 0⟩]⟩,
   ⟨"", [⟨"Carol", [(1, "Hello")], 0⟩, ⟨"Dan", [(2, "Hi")], 0⟩]⟩]

/-- Filesystem for the C7 witness: a script whose first scene is titled and
whose second scene is untitled (no second `[scene]` line). -/
def fsC7 : FS := fun name =>
  if name = "play.txt" then some ["[scene] Act1", "s1.txt", "s2.txt"]
  else if name = "s1.txt" then some ["Eve e.txt", "Finn f.txt"]
  else if name = "s2.txt" then some ["Gil e.txt", "Hana f.txt"]
  else if name = "e.txt" then some ["1 One"]
  else if name = "f.txt" then some ["2 Two"]
  else none

/-- The fragments the C7 witness expects `Play::prepare` to return: the
second fragment's title is empty, yet preparation succeeds. -/
def fragsC7 : List SceneFragment :=
  [⟨"Act1", [⟨"Eve", [(1, "One")], 0⟩, ⟨"Finn", [(2, "Two")], 0⟩]⟩,
   ⟨"", [⟨"Gil", [(1, "One")], 0⟩, ⟨"Hana", [(2, "Two")], 0⟩]⟩]

/-! ## Order-theoretic facts about the line ordering -/

/-- Unfolding characterization of `charListLe` on two cons cells. -/
theorem charListLe_cons (a b : Char) (as bs : List Char) :
    charListLe (a :: as) (b :: bs) = true ↔
      (a < b ∨ (a = b ∧ charListLe as bs = true)) := by
  show (if a < b then true else if b < a then false else charListLe as bs) = true ↔ _
  by_cases h1 : a < b
  · simp [h1]
  · by_cases h2 : b < a
    · have hne : a ≠ b := fun he => absurd (he ▸ h2) (lt_irrefl a)
      simp [h1, h2, hne]
    · have he : a = b := le_antisymm (not_lt.mp h2) (not_lt.mp h1)
      simp [h1, h2, he]

/-- `charListLe` is total. -/
theorem charListLe_total : ∀ a b : List Char, charListLe a b = true ∨ charListLe b a = true
  | [], _ => Or.inl rfl
  | _ :: _, [] => Or.inr rfl
  | a :: as, b :: bs => by
    rcases lt_trichotomy a b with h | h | h
    · exact Or.inl ((charListLe_cons a b as bs).mpr (Or.inl h))
    · rcases charListLe_total as bs with ih | ih
      · exact Or.inl ((charListLe_cons a b as bs).mpr (Or.inr ⟨h, ih⟩))
      · exact Or.inr ((charListLe_cons b a bs as).mpr (Or.inr ⟨h.symm, ih⟩))
    · exact Or.inr ((charListLe_cons b a bs as).mpr (Or.inl h))

/-- `charListLe` is transitive. -/
theorem charListLe_trans : ∀ a b c : List Char,
    charListLe a b = true → charListLe b c = true → charListLe a c = true
  | [], _, _, _, _ => rfl
  | _ :: _, [], _, h1, _ => by exact absurd h1 (by simp [charListLe])
  | _ :: _, _ :: _, [], _, h2 => by exact absurd h2 (by simp [charListLe])
  | a :: as, b :: bs, c :: cs, h1, h2 => by
    rcases (charListLe_cons a b as bs).mp h1 with hab | ⟨hab, has⟩ <;>
      rcases (charListLe_cons b c bs cs).mp h2 with hbc | ⟨hbc, hbs⟩
    · exact (charListLe_cons a c as cs).mpr (Or.inl (lt_trans hab hbc))
    · exact (charListLe_cons a c as cs).mpr (Or.inl (hbc ▸ hab))
    · exact (charListLe_cons a c as cs).mpr (Or.inl (hab ▸ hbc))
    · exact (charListLe_cons a c as cs).mpr
        (Or.inr ⟨hab.trans hbc, charListLe_trans as bs cs has hbs⟩)

/-- Unfolding characterization of `lineLe`. -/
theorem lineLe_cases (a b : Nat × String) :
    lineLe a b = true ↔
      (a.1 < b.1 ∨ (a.1 = b.1 ∧ charListLe a.2.data b.2.data = true)) := by
  unfold lineLe
  by_cases h1 : a.1 < b.1
  · simp [h1]
  · by_cases h2 : b.1 < a.1
    · have hne : a.1 ≠ b.1 := by omega
      simp [h1, h2, hne]
    · have he : a.1 = b.1 := by omega
      simp [h1, h2, he]

instance : IsTotal (Nat × String) lineRel :=
  ⟨fun a b => by
    unfold lineRel
    rcases Nat.lt_trichotomy a.1 b.1 with h | h | h
    · exact Or.inl ((lineLe_cases a b).mpr (Or.inl h))
    · rcases charListLe_total a.2.data b.2.data with hc | hc
      · exact Or.inl ((lineLe_cases a b).mpr (Or.inr ⟨h, hc⟩))
      · exact Or.inr ((lineLe_cases b a).mpr (Or.inr ⟨h.symm, hc⟩))
    · exact Or.inr ((lineLe_cases b a).mpr (Or.inl h))⟩

instance : IsTrans (Nat × String) lineRel :=
  ⟨fun a b c h1 h2 => by
    unfold lineRel at *
    rcases (lineLe_cases a b).mp h1 with hab | ⟨hab, has⟩ <;>
      rcases (lineLe_cases b c).mp h2 with hbc | ⟨hbc, hbs⟩
    · exact (lineLe_cases a c).mpr (Or.inl (lt_trans hab hbc))
    · exact (lineLe_cases a c).mpr (Or.inl (hbc ▸ hab))
    · exact (lineLe_cases a c).mpr (Or.inl (hab ▸ hbc))
    · exact (lineLe_cases a c).mpr
        (Or.inr ⟨hab.trans hbc, charListLe_trans _ _ _ has hbs⟩)⟩

/-! ## Facts about the dialogue merge loop -/

/-- A player with a pending line has positive pending count. -/
theorem Player.pending_pos (p : Player) (m : Nat) (h : p.next_line = some m) :
    0 < p.pending := by
  unfold Player.next_line at h
  rcases hg : p.lines.get? p.line_index with _ | t
  · rw [hg] at h; exact absurd h (by simp)
  · have := (List.get?_eq_some.mp hg).1
    unfold Player.pending
    omega

/-- Speaking strictly decreases the pending count of a player with a pending
line. -/
theorem Player.pending_speak (p : Player) (recent : String) (m : Nat)
    (h : p.next_line = some m) : (p.speak recent).1.pending < p.pending := by
  have hpos := Player.pending_pos p m h
  unfold Player.next_line at h
  rcases hg : p.lines.get? p.line_index with _ | ⟨num, text⟩
  · rw [hg] at h; exact absurd h (by simp)
  · have hlt := (List.get?_eq_some.mp hg).1
    unfold Player.speak Player.pending
    rw [hg]
    by_cases hr : recent ≠ p.name <;> simp [hr] <;> omega

/-- Speaking never increases a player's pending count. -/
theorem Player.pending_speak_le (p : Player) (recent : String) :
    (p.speak recent).1.pending ≤ p.pending := by
  unfold Player.speak Player.pending
  rcases hg : p.lines.get? p.line_index with _ | ⟨num, text⟩
  · exact le_refl _
  · by_cases hr : recent ≠ p.name <;> simp [hr] <;> omega

/-- `totalPending` over a cons cell. -/
theorem totalPending_cons (c : Player) (cs : List Player) :
    totalPending (c :: cs) = c.pending + totalPending cs := by
  unfold totalPending
  simp

/-- The speaking pass never increases, and — when some cast member's pending
line number equals the minimum being spoken — strictly decreases, the total
pending count. -/
theorem speakRound_totalPending (m : Nat) :
    ∀ (cs : List Player) (recent : String),
      totalPending (SceneFragment.speakRound cs m recent).1 ≤ totalPending cs
      ∧ ((∃ c ∈ cs, c.next_line = some m) →
        totalPending (SceneFragment.speakRound cs m recent).1 < totalPending cs)
  | [], recent => by
    refine ⟨le_refl _, ?_⟩
    rintro ⟨c, hc, -⟩
    exact absurd hc (List.not_mem_nil c)
  | c :: rest, recent => by
    by_cases hc : c.next_line = some m
    · have hdec := Player.pending_speak c recent m hc
      have ih := speakRound_totalPending m rest (c.speak recent).2.1
      have hgoal : (SceneFragment.speakRound (c :: rest) m recent).1
          = (c.speak recent).1 :: (SceneFragment.speakRound rest m (c.speak recent).2.1).1 := by
        simp [SceneFragment.speakRound, hc]
      rw [hgoal, totalPending_cons, totalPending_cons]
      exact ⟨by omega, fun _ => by omega⟩
    · have ih := speakRound_totalPending m rest recent
      have hgoal : (SceneFragment.speakRound (c :: rest) m recent).1
          = c :: (SceneFragment.speakRound rest m recent).1 := by
        simp [SceneFragment.speakRound, hc]
      rw [hgoal, totalPending_cons, totalPending_cons]
      refine ⟨by omega, ?_⟩
      rintro ⟨d, hd, hdm⟩
      have hdrest : d ∈ rest := by
        rcases List.mem_cons.mp hd with rfl | h
        · exact absurd hdm hc
        · exact h
      have ih2 := ih.2 ⟨d, hdrest, hdm⟩
      omega

/-- A `some` minimum pending line number is attained by some cast member. -/
theorem minPending_attained (cs : List Player) (m : Nat)
    (h : minPending cs = some m) : ∃ c ∈ cs, c.next_line = some m := by
  unfold minPending at h
  have hmem := List.min?_mem (fun a b => min_choice a b) h
  exact List.mem_filterMap.mp hmem

/-- When no line is pending at all, the minimum computation yields `none`
and the loop exits. -/
theorem minPending_eq_none (cs : List Player) (h : totalPending cs = 0) :
    minPending cs = none := by
  rcases hm : minPending cs with _ | m
  · rfl
  · obtain ⟨c, hc, hcm⟩ := minPending_attained cs m hm
    have hpos := Player.pending_pos c m hcm
    have hle : c.pending ≤ totalPending cs :=
      List.single_le_sum (fun x _ => Nat.zero_le x) _ (List.mem_map_of_mem Player.pending hc)
    omega

/-- Any fuel at least `totalPending cs` runs the `recite` loop to the same
result: the loop body is entered only while some line is pending, and each
entry consumes at least one pending line. -/
theorem reciteLoopF_fuel : ∀ (k : Nat) (cs : List Player)
    (f1 f2 next_line_number : Nat) (cur_speaker : String),
    totalPending cs ≤ k → totalPending cs ≤ f1 → totalPending cs ≤ f2 →
    SceneFragment.reciteLoopF f1 cs next_line_number cur_speaker
      = SceneFragment.reciteLoopF f2 cs next_line_number cur_speaker
  | 0, cs, f1, f2, next, cur, hk, h1, h2 => by
    have hm : minPending cs = none := minPending_eq_none cs (Nat.le_zero.mp hk)
    cases f1 <;> cases f2 <;> simp [SceneFragment.reciteLoopF, hm]
  | k + 1, cs, f1, f2, next, cur, hk, h1, h2 => by
    rcases hm : minPending cs with _ | m
    · cases f1 <;> cases f2 <;> simp [SceneFragment.reciteLoopF, hm]
    · obtain ⟨c, hc, hcm⟩ := minPending_attained cs m hm
      have hpos := Player.pending_pos c m hcm
      have hcle : c.pending ≤ totalPending cs :=
        List.single_le_sum (fun x _ => Nat.zero_le x) _ (List.mem_map_of_mem Player.pending hc)
      have hdec := (speakRound_totalPending m cs cur).2 ⟨c, hc, hcm⟩
      obtain ⟨g1, rfl⟩ : ∃ g, f1 = g + 1 := ⟨f1 - 1, by omega⟩
      obtain ⟨g2, rfl⟩ : ∃ g, f2 = g + 1 := ⟨f2 - 1, by omega⟩
      have hrec := reciteLoopF_fuel k (SceneFragment.speakRound cs m cur).1 g1 g2
        (max next m + 1) (SceneFragment.speakRound cs m cur).2.1
        (by omega) (by omega) (by omega)
      simp only [SceneFragment.reciteLoopF, hm, hrec]

/-- C10: the dialogue merge loop of `SceneFragment::recite` terminates —
whenever some cast member still has a pending line (the minimum computation
yields `some m`), the speaking pass strictly decreases the total count of
pending lines, and consequently `totalPending` fuel always suffices: every
fuel bound of at least `totalPending` runs the loop to the very same
completed result. -/
theorem c10_recite_loop_terminates (cs : List Player) :
    (∀ m cur_speaker, minPending cs = some m →
      totalPending (SceneFragment.speakRound cs m cur_speaker).1 < totalPending cs)
    ∧ (∀ fuel next_line_number cur_speaker, totalPending cs ≤ fuel →
      SceneFragment.reciteLoopF fuel cs next_line_number cur_speaker
        = SceneFragment.reciteLoop cs next_line_number cur_speaker) := by
  constructor
  · intro m cur h
    exact (speakRound_totalPending m cs cur).2 (minPending_attained cs m h)
  · intro fuel next cur hf
    exact reciteLoopF_fuel fuel cs fuel (totalPending cs) next cur hf hf (le_refl _)

/-- C10 witness: a one-character cast with one pending line — the speaking
pass drops the total pending count from 1 to 0, and fuel 5 gives the same
loop result as the canonical fuel. -/
theorem c10_witness :
    totalPending (SceneFragment.speakRound [⟨"A", [(0, "x")], 0⟩] 0 "").1
        < totalPending [⟨"A", [(0, "x")], 0⟩]
    ∧ SceneFragment.reciteLoopF 5 [⟨"A", [(0, "x")], 0⟩] 3 "B"
        = SceneFragment.reciteLoop [⟨"A", [(0, "x")], 0⟩] 3 "B" := by
  exact ⟨(c10_recite_loop_terminates [⟨"A", [(0, "x")], 0⟩]).1 0 "" (by decide),
    (c10_recite_loop_terminates [⟨"A", [(0, "x")], 0⟩]).2 5 3 "B" (by decide)⟩

/-! ## Theorems -/

/-- C1: a scene config file with only 1 line makes `SceneFragment::prepare`
return `Err(ERR_SCRIPT_GEN)`, but the task closure in `Play::process_config`
discards that `Result` and returns the partial (empty-cast) fragment, so the
join succeeds and `Play::prepare` returns `Ok` — the process exits 0, not 2,
and the partial `Play` is recited.  This contradicts the claim (and the
propagation design of the error codes), exhibiting the code bug. -/
theorem c1_scene_error_swallowed :
    SceneFragment.prepare fsC1 (SceneFragment.new "Act1") "conf.txt"
        = PrepResult.err ERR_SCRIPT_GEN (SceneFragment.new "Act1")
    ∧ Play.prepare fsC1 "script.txt" = Except.ok [SceneFragment.new "Act1"] := by
  constructor
  · rfl
  · rfl

/-- C3 counterexample: the three-token config line `"a b c"` is not skipped —
it contributes the entry `("a", "b")` even though its token count is not
exactly 2, refuting the claim that only lines with exactly two tokens yield
an entry. -/
theorem c3_counterexample :
    SceneFragment.add_config "a b c" [] = [("a", "b")]
    ∧ (splitWhitespace "a b c").length ≠ 2
    ∧ SceneFragment.add_config "a b c" [] ≠ ([] : PlayConfig) := by
  refine ⟨by decide, by decide, by decide⟩

/-- C3 amended: a tokenized config line with fewer than 2 tokens is skipped;
a line with 2 or more tokens appends the entry (first token, second token);
the not-exactly-two-tokens warning is emitted exactly when whinge mode is on
and the token count differs from 2; no token count ever aborts the scene
(`add_config` is total and never produces an error). -/
theorem c3_amended (line : String) (play_config : PlayConfig) :
    ((splitWhitespace line).length < 2 →
      SceneFragment.add_config line play_config = play_config)
    ∧ (∀ name file rest, splitWhitespace line = name :: file :: rest →
        SceneFragment.add_config line play_config = play_config ++ [(name, file)])
    ∧ (∀ whinge, SceneFragment.add_config_warning whinge line ≠ [] ↔
        (whinge = true ∧ (splitWhitespace line).length ≠ 2)) := by
  refine ⟨?_, ?_, ?_⟩
  · intro h
    unfold SceneFragment.add_config
    match hs : splitWhitespace line with
    | [] => rfl
    | [t] => rfl
    | a :: b :: r => rw [hs] at h; exact absurd h (by simp)
  · intro name file rest hs
    unfold SceneFragment.add_config
    rw [hs]
  · intro whinge
    unfold SceneFragment.add_config_warning
    by_cases hw : whinge = true ∧ (splitWhitespace line).length ≠ 2
    · rw [if_pos hw]; simp [hw]
    · rw [if_neg hw]; simp [hw]

/-- C3 witness: concrete applications of the amended claim — a one-token line
is skipped, a three-token line appends its first two tokens, and the warning
fires on a three-token line exactly in whinge mode. -/
theorem c3_witness :
    SceneFragment.add_config "solo" [("p", "q")] = [("p", "q")]
    ∧ SceneFragment.add_config "a b c" [("p", "q")] = [("p", "q"), ("a", "b")]
    ∧ SceneFragment.add_config_warning true "a b c" ≠ []
    ∧ SceneFragment.add_config_warning false "a b c" = [] := by
  refine ⟨(c3_amended "solo" [("p", "q")]).1 (by decide),
    (c3_amended "a b c" [("p", "q")]).2.1 "a" "b" ["c"] (by decide),
    ((c3_amended "a b c" []).2.2 true).mpr (by decide), ?_⟩
  have h := ((c3_amended "a b c" []).2.2 false)
  by_contra hne
  exact absurd (h.mp hne).1 (by decide)

/-- C2 counterexample: the dialogue file lines `"1 b"`, `"1 a"` parse, in
file order, to `[(1, "b"), (1, "a")]`, but `Player::prepare` produces
`[(1, "a"), (1, "b")]` — `self.lines.sort()` orders the whole
`(usize, String)` tuples, so two lines with equal numbers are reordered by
their text rather than kept in file order, refuting the stability-by-file-
order part of the claim. -/
theorem c2_counterexample :
    (((["1 b", "1 a"].map trim).foldl Player.add_script_line (Player.new "H")).lines
        = [(1, "b"), (1, "a")])
    ∧ Player.prepare fsC2 (Player.new "H") "ham.txt"
        = some ⟨"H", [(1, "a"), (1, "b")], 0⟩ := by
  exact ⟨by decide, by decide⟩

/-- C2 amended: after `Player::prepare` the player's lines are sorted
ascending by the full `(number, text)` pair — so ascending by line number,
with ties on the number ordered by the text (Rust's tuple `Ord`), not by
original file position — and they are a permutation of the lines parsed from
the file in file order. -/
theorem c2_amended (fs : FS) (p : Player) (file_name : String) (q : Player)
    (raws : List String) (hfs : fs file_name = some raws)
    (h : Player.prepare fs p file_name = some q) :
    List.Pairwise lineRel q.lines
    ∧ List.Pairwise (fun x y : Nat × String => x.1 ≤ y.1) q.lines
    ∧ q.lines.Perm (((raws.map trim).foldl Player.add_script_line p).lines) := by
  have h' : (some { (raws.map trim).foldl Player.add_script_line p with
      lines := List.insertionSort lineRel
        (((raws.map trim).foldl Player.add_script_line p).lines) } : Option Player)
      = some q := by
    rw [← h]; unfold Player.prepare grab_trimmed_file_lines; rw [hfs]
  have hq := Option.some.inj h'
  subst hq
  refine ⟨List.sorted_insertionSort lineRel _, ?_, List.perm_insertionSort lineRel _⟩
  refine (List.sorted_insertionSort lineRel _).imp ?_
  intro x y hxy
  rcases (lineLe_cases x y).mp hxy with hlt | ⟨heq, _⟩
  · exact Nat.le_of_lt hlt
  · exact Nat.le_of_eq heq

/-- C2 witness: the amended claim applied at the concrete dialogue file of
the counterexample — the prepared lines are pair-sorted and a permutation of
the file-order parse. -/
theorem c2_witness :
    List.Pairwise lineRel (Player.mk "H" [(1, "a"), (1, "b")] 0).lines
    ∧ (Player.mk "H" [(1, "a"), (1, "b")] 0).lines.Perm
        (((["1 b", "1 a"].map trim).foldl Player.add_script_line (Player.new "H")).lines) := by
  have h := c2_amended fsC2 (Player.new "H") "ham.txt"
    (Player.mk "H" [(1, "a"), (1, "b")] 0) ["1 b", "1 a"] rfl (by decide)
  exact ⟨h.1, h.2.2⟩

/-- C5: the `Player` ordering — two players without lines compare equal; a
player without lines compares less than one with lines (and conversely
greater); two players with lines compare exactly by the numbers of their
first dialogue lines (equal first numbers give `Ordering.eq`); and the names
are never consulted: replacing both names leaves the comparison unchanged. -/
theorem c5_player_ordering (a b : Player) :
    (a.lines = [] → b.lines = [] → Player.cmp a b = Ordering.eq)
    ∧ (a.lines = [] → b.lines ≠ [] → Player.cmp a b = Ordering.lt)
    ∧ (a.lines ≠ [] → b.lines = [] → Player.cmp a b = Ordering.gt)
    ∧ (∀ x xs y ys, a.lines = x :: xs → b.lines = y :: ys →
        Player.cmp a b = compare x.1 y.1
        ∧ (x.1 = y.1 → Player.cmp a b = Ordering.eq))
    ∧ (∀ n m, Player.cmp { a with name := n } { b with name := m } = Player.cmp a b) := by
  refine ⟨?_, ?_, ?_, ?_, ?_⟩
  · intro ha hb
    simp [Player.cmp, ha, hb]
  · intro ha hb
    rcases hbl : b.lines with _ | ⟨y, ys⟩
    · exact absurd hbl hb
    · simp [Player.cmp, ha, hbl]
  · intro ha hb
    rcases hal : a.lines with _ | ⟨x, xs⟩
    · exact absurd hal ha
    · simp [Player.cmp, hal, hb]
  · intro x xs y ys hx hy
    constructor
    · simp [Player.cmp, hx, hy]
    · intro he
      simp only [Player.cmp, hx, hy]
      rw [he]
      exact compare_eq_iff_eq.mpr rfl
  · intro n m
    rfl

/-- C5 witness: concrete applications — two silent players with different
names compare equal; a silent player is less than a speaking one; two
players sharing first line number 3 but with different names and texts
compare equal. -/
theorem c5_witness :
    Player.cmp (Player.new "Zoe") (Player.new "Al") = Ordering.eq
    ∧ Player.cmp (Player.new "Zoe") ⟨"Al", [(7, "hi")], 0⟩ = Ordering.lt
    ∧ Player.cmp ⟨"Zoe", [(3, "x")], 0⟩ ⟨"Al", [(3, "y")], 0⟩ = Ordering.eq := by
  refine ⟨(c5_player_ordering (Player.new "Zoe") (Player.new "Al")).1 rfl rfl,
    (c5_player_ordering (Player.new "Zoe") ⟨"Al", [(7, "hi")], 0⟩).2.1 rfl (by decide),
    ((c5_player_ordering ⟨"Zoe", [(3, "x")], 0⟩ ⟨"Al", [(3, "y")], 0⟩).2.2.2.1
      (3, "x") [] (3, "y") [] rfl rfl).2 rfl⟩

/-- C8: the names announced as entering are exactly those present in the
scene and absent from the previous scene; diffing a scene against itself
announces no names; and with no previous scene (modelled by the diff against
an empty fragment, which is what `enter_all` amounts to) the full cast is
announced in cast order. -/
theorem c8_entering (a b : SceneFragment) :
    (∀ n, n ∈ SceneFragment.entering a b ↔ (n ∈ a.names ∧ ¬ n ∈ b.names))
    ∧ SceneFragment.entering a a = []
    ∧ SceneFragment.enter a (SceneFragment.new "") = SceneFragment.enter_all a
    ∧ SceneFragment.entering a (SceneFragment.new "") = a.names := by
  have hbase : ∀ c : SceneFragment, SceneFragment.entering c (SceneFragment.new "") = c.names := by
    intro c
    unfold SceneFragment.entering
    simp [SceneFragment.new, SceneFragment.names]
  refine ⟨?_, ?_, ?_, hbase a⟩
  · intro n
    unfold SceneFragment.entering
    simp [List.mem_filter]
  · unfold SceneFragment.entering
    rw [List.filter_eq_nil_iff]
    intro n hn
    simp [hn]
  · unfold SceneFragment.enter SceneFragment.enter_all
    rw [hbase a]

/-- C9: the names announced as exiting are exactly those present in the
scene and absent from the next scene, enumerated in the reverse of cast
order (the reversal of the cast-order diff); with no next scene (the diff
against an empty fragment, which is what `exit_all` amounts to) all names
are announced, in reverse cast order. -/
theorem c9_exiting (a b : SceneFragment) :
    SceneFragment.exiting a b
        = (a.names.filter (fun n => ! b.names.contains n)).reverse
    ∧ (∀ n, n ∈ SceneFragment.exiting a b ↔ (n ∈ a.names ∧ ¬ n ∈ b.names))
    ∧ SceneFragment.exiting a (SceneFragment.new "") = a.names.reverse
    ∧ SceneFragment.exit a (SceneFragment.new "") = SceneFragment.exit_all a := by
  have hrev : SceneFragment.exiting a b
      = (a.names.filter (fun n => ! b.names.contains n)).reverse := by
    unfold SceneFragment.exiting
    rw [List.filter_reverse]
  have hbase : SceneFragment.exiting a (SceneFragment.new "") = a.names.reverse := by
    unfold SceneFragment.exiting
    simp [SceneFragment.new, SceneFragment.names]
  refine ⟨hrev, ?_, hbase, ?_⟩
  · intro n
    unfold SceneFragment.exiting
    simp [List.mem_filter]
  · unfold SceneFragment.exit SceneFragment.exit_all
    rw [hbase]

/-- C4 counterexample: in `fragsC4` the character "A" speaks the last line
of the first fragment and the first line of the second, so the immediately
preceding speaker across the whole play does not change — yet the full
recitation prints the blank-line-plus-name announcement (the `" A"` line)
twice, because `cur_speaker` is a local of `SceneFragment::recite`,
re-created empty for every fragment.  Under the claim (tracking across the
whole play) the name would be announced only once. -/
theorem c4_counterexample :
    Play.recite fragsC4
      = ["", "Act1", "", "[Enter A.]", "", " A", "hello", "", "",
         "", " A", "again", "", "[Exit A.]", ""]
    ∧ (Play.recite fragsC4).count " A" = 2 := by
  exact ⟨by decide, by decide⟩

/-- C4 amended: speaker announcements are tracked per scene fragment, not
across the whole play — within one fragment's recitation, a speaking
character with a pending line prints a blank line and their name before the
dialogue text exactly when the currently tracked recent speaker (reset to
the empty string at the start of each fragment) differs from them, and
otherwise prints only the text; in both cases the tracker ends at the
speaker's name and the cursor advances by one. -/
theorem c4_amended (p : Player) (recent_player : String) (num : Nat) (text : String)
    (h : p.lines.get? p.line_index = some (num, text)) :
    Player.speak p recent_player
      = ({ p with line_index := p.line_index + 1 }, p.name,
         if recent_player ≠ p.name then ["", " " ++ p.name, text] else [text]) := by
  have h' : p.lines[p.line_index]? = some (num, text) := by
    rw [← List.get?_eq_getElem?]
    exact h
  by_cases hr : recent_player ≠ p.name
  · simp [Player.speak, h', hr]
  · simp [Player.speak, h', hr, not_ne_iff.mp hr]

/-- C4 witness: the amended claim applied to a concrete player — a fresh
(empty) tracker triggers the announcement, a matching tracker suppresses it,
and the cursor advances in both cases. -/
theorem c4_witness :
    Player.speak ⟨"A", [(0, "hi")], 0⟩ "" = (⟨"A", [(0, "hi")], 1⟩, "A", ["", " A", "hi"])
    ∧ Player.speak ⟨"A", [(0, "hi")], 0⟩ "A" = (⟨"A", [(0, "hi")], 1⟩, "A", ["hi"]) := by
  constructor
  · rw [c4_amended ⟨"A", [(0, "hi")], 0⟩ "" 0 "hi" rfl]
    decide
  · rw [c4_amended ⟨"A", [(0, "hi")], 0⟩ "A" 0 "hi" rfl]
    decide

/-- The join loop reproduces, index by index, the task launched for each
dispatch-list entry: joining in dispatch order means the i-th joined
fragment is exactly the result of the i-th dispatched task. -/
theorem joinAll_get (fs : FS) : ∀ (ts : List (String × String)) (frags : List SceneFragment),
    Play.joinAll fs ts = some frags →
    frags.length = ts.length
    ∧ ∀ i, (ts.get? i).bind (fun t => Play.runTask fs t.1 t.2) = frags.get? i
  | [], frags, h => by
    have he : ([] : List SceneFragment) = frags := Option.some.inj h
    subst he
    exact ⟨rfl, fun i => by cases i <;> rfl⟩
  | (title, text) :: rest, frags, h => by
    unfold Play.joinAll at h
    rcases hr : Play.runTask fs title text with _ | frag
    · rw [hr] at h; exact absurd h (by simp)
    · rw [hr] at h
      rcases hj : Play.joinAll fs rest with _ | l
      · rw [hj] at h; exact absurd h (by simp)
      · rw [hj] at h
        have he : frag :: l = frags := Option.some.inj h
        subst he
        obtain ⟨hlen, hget⟩ := joinAll_get fs rest l hj
        refine ⟨by simp [hlen], ?_⟩
        intro i
        cases i with
        | zero => simp [hr]
        | succ n => simpa using hget n

/-- The config-file paths of the dispatch list are exactly the config-file
entries of the script config, in script order, whatever title is buffered. -/
theorem dispatchList_snd : ∀ (entries : ScriptConfig) (title : String),
    (Play.dispatchList entries title).map Prod.snd
      = (entries.filter (fun e => ! e.1)).map Prod.snd
  | [], _ => rfl
  | (b, text) :: rest, title => by
    cases b
    · simp [Play.dispatchList, List.filter_cons, dispatchList_snd rest ""]
    · simp [Play.dispatchList, List.filter_cons, dispatchList_snd rest text]

/-- C6: when `Play::process_config` succeeds, its fragment sequence is in
one-to-one, order-preserving correspondence with the dispatched tasks — the
i-th fragment is precisely the result of the task dispatched for the i-th
config reference (whose title argument is the most recent unconsumed
preceding title, per `dispatchList`), and the dispatched config paths are
the script's config-file entries in script order.  Joining in dispatch
order means completion timing cannot reorder the sequence. -/
theorem c6_order_preserved (fs : FS) (entries : ScriptConfig) (frags : List SceneFragment)
    (h : Play.process_config fs entries = Except.ok frags) :
    frags.length = (Play.dispatchList entries "").length
    ∧ (∀ i, ((Play.dispatchList entries "").get? i).bind
        (fun t => Play.runTask fs t.1 t.2) = frags.get? i)
    ∧ (Play.dispatchList entries "").map Prod.snd
        = (entries.filter (fun e => ! e.1)).map Prod.snd := by
  unfold Play.process_config at h
  rcases hj : Play.joinAll fs (Play.dispatchList entries "") with _ | l
  · rw [hj] at h; exact absurd h (by simp)
  · rw [hj] at h
    have he : l = frags := Except.ok.inj h
    subst he
    obtain ⟨hlen, hget⟩ := joinAll_get fs _ _ hj
    exact ⟨hlen, hget, dispatchList_snd entries ""⟩

/-- C6 witness: on the concrete two-scene script config, processing succeeds
with exactly one fragment per config reference, and the second fragment is
the second task's result. -/
theorem c6_witness :
    fragsC6.length = (Play.dispatchList entriesC6 "").length
    ∧ ((Play.dispatchList entriesC6 "").get? 1).bind
        (fun t => Play.runTask fsC6 t.1 t.2) = fragsC6.get? 1 := by
  have h := c6_order_preserved fsC6 entriesC6 fragsC6 rfl
  exact ⟨h.1, h.2.1 1⟩

/-- C7: after the scene tasks are joined, `Play::prepare` fails exactly when
an earlier step failed (script unreadable/empty or a task panicked), or the
fragment list is empty, or the first fragment's title is empty; and whenever
the pipeline succeeds with a non-empty fragment list whose first title is
non-empty, preparation succeeds — the titles of fragments after the first
are never examined. -/
theorem c7_prepare_postcheck (fs : FS) (script_file_name : String) :
    ((∃ e, Play.prepare fs script_file_name = Except.error e) ↔
      ((∃ e, (Play.read_config fs script_file_name).bind
          (fun cfg => Play.process_config fs cfg) = Except.error e)
        ∨ (∃ frags, (Play.read_config fs script_file_name).bind
            (fun cfg => Play.process_config fs cfg) = Except.ok frags
            ∧ (frags = [] ∨ frags.head?.map SceneFragment.scene_title = some ""))))
    ∧ (∀ frags, (Play.read_config fs script_file_name).bind
        (fun cfg => Play.process_config fs cfg) = Except.ok frags →
        frags ≠ [] → frags.head?.map SceneFragment.scene_title ≠ some "" →
        Play.prepare fs script_file_name = Except.ok frags) := by
  unfold Play.prepare
  rcases hr : Play.read_config fs script_file_name with e | cfg
  · simp [Except.bind]
  · simp only [Except.bind]
    rcases hp : Play.process_config fs cfg with e | frags
    · simp
    · rcases frags with _ | ⟨f, rest⟩
      · simp
      · by_cases ht : f.scene_title = ""
        · simp [ht]
        · simp [ht]

/-- C7 witness: on the concrete script `fsC7`, whose second scene is
untitled, the pipeline succeeds, the first title is non-empty, and
`Play::prepare` therefore succeeds even though the second fragment's title
is empty. -/
theorem c7_witness :
    Play.prepare fsC7 "play.txt" = Except.ok fragsC7
    ∧ (fragsC7.get? 1).map SceneFragment.scene_title = some "" := by
  refine ⟨?_, by decide⟩
  exact (c7_prepare_postcheck fsC7 "play.txt").2 fragsC7 rfl (by decide) (by decide)

end Lab3
